import Mathlib

/-!
Shallow embedding of `src/cloud_to_scan.cpp` (pointcloud_to_laserscan,
class `CloudToScan`).  Machine doubles are modelled by exact rationals;
the transcendental library calls (`atan2`, the axis-angle quaternion
constructor `tf::Quaternion(axis, angle)`) and `sqrt` are passed in as
function parameters ("oracles"), so every definition stays computable
and theorems state the needed square-root properties as hypotheses.
-/

namespace CloudToScan

/-- A 3-vector, as `tf::Vector3`. -/
structure V3 where
  x : ℚ
  y : ℚ
  z : ℚ
deriving DecidableEq, Repr

/-- Quaternion (w + xi + yj + zk), as `tf::Quaternion`. -/
structure Quat where
  w : ℚ
  x : ℚ
  y : ℚ
  z : ℚ
deriving DecidableEq, Repr

/-- Hamilton product of quaternions. -/
def qmul (a b : Quat) : Quat :=
  { w := a.w * b.w - a.x * b.x - a.y * b.y - a.z * b.z
    x := a.w * b.x + a.x * b.w + a.y * b.z - a.z * b.y
    y := a.w * b.y - a.x * b.z + a.y * b.w + a.z * b.x
    z := a.w * b.z + a.x * b.y - a.y * b.x + a.z * b.w }

/-- Quaternion conjugate; the inverse for unit quaternions, as used by
`tf::Quaternion::inverse` / the transpose of the basis matrix. -/
def qconj (a : Quat) : Quat := ⟨a.w, -a.x, -a.y, -a.z⟩

/-- Rotate a vector by a (unit) quaternion: take the vector part of
`q * (0,v) * conj q`. -/
def qrot (q : Quat) (v : V3) : V3 :=
  let r := qmul (qmul q ⟨0, v.x, v.y, v.z⟩) (qconj q)
  ⟨r.x, r.y, r.z⟩

/-- A rigid transform: rotation plus translation, as `tf::Transform`. -/
structure Tf where
  rot : Quat
  origin : V3
deriving DecidableEq, Repr

/-- Apply a transform to a vector (rotate then translate),
as `tf::Transform::operator()`. -/
def tfApply (t : Tf) (v : V3) : V3 :=
  let r := qrot t.rot v
  ⟨r.x + t.origin.x, r.y + t.origin.y, r.z + t.origin.z⟩

/-- Compose two transforms, as `tf::Transform::mult`. -/
def tfMult (a b : Tf) : Tf :=
  ⟨qmul a.rot b.rot, tfApply a b.origin⟩

/-- Invert a transform, as `tf::Transform::inverse` (rotation inverse =
conjugate for unit quaternions; origin mapped through it, negated). -/
def tfInverse (t : Tf) : Tf :=
  let qi := qconj t.rot
  let o := qrot qi ⟨-t.origin.x, -t.origin.y, -t.origin.z⟩
  ⟨qi, o⟩

/-- The configuration fields of `CloudToScan` that the processing
callback reads (`min_height_`, ..., `range_min_sq_`).  `range_min_sq`
is a stored field, not recomputed on read, exactly as in the source. -/
structure Params where
  min_height : ℚ
  max_height : ℚ
  angle_min : ℚ
  angle_max : ℚ
  angle_increment : ℚ
  scan_time : ℚ
  range_min : ℚ
  range_max : ℚ
  range_min_sq : ℚ
deriving DecidableEq, Repr

/-- C++ `(int)` cast of a double: truncation toward zero. -/
def truncToInt (q : ℚ) : ℤ := if 0 ≤ q then ⌊q⌋ else ⌈q⌉

/-- `uint32_t ranges_size = std::ceil((angle_max - angle_min) / angle_increment)`
(line 155).  Negative values would be C++ UB; we clamp at zero via `toNat`. -/
def rangesSize (P : Params) : ℕ :=
  (⌈(P.angle_max - P.angle_min) / P.angle_increment⌉).toNat

/-- `int index = (angle - output->angle_min) / output->angle_increment`
(line 230): double division then cast to `int`. -/
def binIndex (P : Params) (angle : ℚ) : ℤ :=
  truncToInt ((angle - P.angle_min) / P.angle_increment)

/-- A point as it enters the per-point loop: each coordinate is either a
real value (`some q`) or an IEEE NaN (`none`).  Rational arithmetic never
produces a NaN, so `none` only marks values that were NaN in the input. -/
structure TPoint where
  x : Option ℚ
  y : Option ℚ
  z : Option ℚ
deriving DecidableEq, Repr

/-- The `std::isnan` test of line 206: true iff some coordinate is NaN. -/
def isNaNPt (p : TPoint) : Bool :=
  p.x.isNone || p.y.isNone || p.z.isNone

/-- Apply the composite transform to an input point (line 200,
`p = cloud_to_out(p)`).  A NaN coordinate contaminates every output
coordinate, as IEEE arithmetic does through the rotation matrix. -/
def tfApplyPt (t : Tf) (p : TPoint) : TPoint :=
  match p.x, p.y, p.z with
  | some x, some y, some z =>
    let r := tfApply t ⟨x, y, z⟩
    ⟨some r.x, some r.y, some r.z⟩
  | _, _, _ => ⟨none, none, none⟩

/-- Loop body, lines 197-234: the reject-or-accumulate pipeline for one
(already transformed) point.  Oracles: `atan2F y x` models `atan2(y, x)`,
`sqrtF q` models `sqrt(q)`.  The unchecked C++ accesses
`output->ranges[index]` are rendered with `getD` / `setD`: exact whenever
the index is in bounds, which is the subject of claim C2. -/
def processPoint (atan2F : ℚ → ℚ → ℚ) (sqrtF : ℚ → ℚ) (P : Params)
    (ranges : Array ℚ) (p : TPoint) : Array ℚ :=
  match p.x, p.y, p.z with
  | some x, some y, some z =>
    if z > P.max_height ∨ z < P.min_height then ranges
    else
      let range_sq := y * y + x * x
      if range_sq < P.range_min_sq then ranges
      else
        let angle := -(atan2F (-y) x)
        if angle < P.angle_min ∨ angle > P.angle_max then ranges
        else
          let index := (binIndex P angle).toNat
          if ranges.getD index 0 * ranges.getD index 0 > range_sq then
            ranges.setD index (sqrtF range_sq)
          else ranges
  | _, _, _ => ranges

/-- The accumulation phase of the callback, lines 155-234: the ranges
array starts as `ranges_size` copies of the sentinel `range_max + 1.0`
(line 156) and is folded over the transformed points. -/
def processCloud (atan2F : ℚ → ℚ → ℚ) (sqrtF : ℚ → ℚ) (P : Params)
    (pts : List TPoint) : Array ℚ :=
  pts.foldl (processPoint atan2F sqrtF P)
    (Array.mkArray (rangesSize P) (P.range_max + 1))

/-- The decision the pipeline takes for one point, factored out: `none`
if the point is rejected by the NaN / height / minimum-range / angle
filters, otherwise `some (bin index, squared planar range)`. -/
def contrib (atan2F : ℚ → ℚ → ℚ) (P : Params) (p : TPoint) :
    Option (ℕ × ℚ) :=
  match p.x, p.y, p.z with
  | some x, some y, some z =>
    if z > P.max_height ∨ z < P.min_height then none
    else
      let range_sq := y * y + x * x
      if range_sq < P.range_min_sq then none
      else
        let angle := -(atan2F (-y) x)
        if angle < P.angle_min ∨ angle > P.angle_max then none
        else some ((binIndex P angle).toNat, range_sq)
  | _, _, _ => none

/-- One min-update of a bin, as lines 232-233 leave the stored value. -/
def binUpdate (sqrtF : ℚ → ℚ) (b : ℚ) (rsq : ℚ) : ℚ :=
  if b * b > rsq then sqrtF rsq else b

/-- The value a single bin holds after folding the squared ranges that
were assigned to it. -/
def binFold (sqrtF : ℚ → ℚ) (init : ℚ) (rsqs : List ℚ) : ℚ :=
  rsqs.foldl (binUpdate sqrtF) init

/-- The squared ranges that the pipeline assigns to bin `i`. -/
def binContribs (atan2F : ℚ → ℚ → ℚ) (P : Params) (pts : List TPoint)
    (i : ℕ) : List ℚ :=
  pts.filterMap (fun p =>
    match contrib atan2F P p with
    | some (j, rsq) => if j = i then some rsq else none
    | none => none)

/-- Lines 168-189: pose of the virtual laser frame (`ref_to_out` as
broadcast).  `qAxisAngle axis angle` models the `tf::Quaternion(axis,
angle)` constructor; `atan2F y x` models `atan2(y, x)`.  The x/y of the
origin come from `cloud_to_ref.getOrigin()`, the z is
`(min_height_+max_height_)*0.5` (line 172); the rotation is built about
the axis (0,0,1) by `alpha = atan2(rotated_z_axis.y, rotated_z_axis.x)`
where `rotated_z_axis` is `cloud_to_ref`'s rotation applied to (0,0,1). -/
def virtualLaserPose (qAxisAngle : V3 → ℚ → Quat) (atan2F : ℚ → ℚ → ℚ)
    (cloud_to_ref : Tf) (min_height max_height : ℚ) : Tf :=
  let ref_origin : V3 :=
    { cloud_to_ref.origin with z := (min_height + max_height) * (1 / 2) }
  let z_axis : V3 := ⟨0, 0, 1⟩
  let rotated_z_axis := qrot cloud_to_ref.rot z_axis
  let alpha := atan2F rotated_z_axis.y rotated_z_axis.x
  ⟨qAxisAngle ⟨0, 0, 1⟩ alpha, ref_origin⟩

/-- Lines 191-193: the same pose with the origin's z reset to 0.0. -/
def groundPose (qAxisAngle : V3 → ℚ → Quat) (atan2F : ℚ → ℚ → ℚ)
    (cloud_to_ref : Tf) (min_height max_height : ℚ) : Tf :=
  let p := virtualLaserPose qAxisAngle atan2F cloud_to_ref min_height max_height
  { p with origin := { p.origin with z := 0 } }

/-- Lines 194-195: `cloud_to_out.mult(ref_to_out.inverse(), cloud_to_ref)`,
the composite transform applied to every point. -/
def cloudToOut (qAxisAngle : V3 → ℚ → Quat) (atan2F : ℚ → ℚ → ℚ)
    (cloud_to_ref : Tf) (min_height max_height : ℚ) : Tf :=
  tfMult (tfInverse (groundPose qAxisAngle atan2F cloud_to_ref min_height max_height))
    cloud_to_ref

/-- Outcome of the `waitForTransform`/`lookupTransform` pair of lines
161-162: either the resolved transform or a thrown `tf::TransformException`. -/
inductive LookupResult
  | ok (t : Tf)
  | err
deriving DecidableEq

/-- The whole `callback` (lines 142-237), modelled on the already
parsed point list.  On a lookup exception the catch block of lines
164-166 only logs (`ROS_ERROR`) and execution falls through, so the
remainder of the pass runs on the default-constructed — in C++
uninitialized — `cloud_to_ref`, modelled by the arbitrary `junk`
transform.  The returned value is `some scan` when line 236 publishes. -/
def callback (qAxisAngle : V3 → ℚ → Quat) (atan2F : ℚ → ℚ → ℚ)
    (sqrtF : ℚ → ℚ) (P : Params) (junk : Tf) (res : LookupResult)
    (pts : List TPoint) : Option (Array ℚ) :=
  let cloud_to_ref : Tf :=
    match res with
    | .ok t => t
    | .err => junk
  let cloud_to_out :=
    cloudToOut qAxisAngle atan2F cloud_to_ref P.min_height P.max_height
  some (processCloud atan2F sqrtF P (pts.map (tfApplyPt cloud_to_out)))

/-- The fields of a `CloudScanConfig` handed to `reconfigure`. -/
structure Config where
  min_height : ℚ
  max_height : ℚ
  angle_min : ℚ
  angle_max : ℚ
  angle_increment : ℚ
  scan_time : ℚ
  range_min : ℚ
  range_max : ℚ
deriving DecidableEq, Repr

/-- `CloudToScan::reconfigure` (lines 128-140): copy every field from
the config, then recompute `range_min_sq_ = range_min_ * range_min_`. -/
def reconfigure (config : Config) (_s : Params) : Params :=
  { min_height := config.min_height
    max_height := config.max_height
    angle_min := config.angle_min
    angle_max := config.angle_max
    angle_increment := config.angle_increment
    scan_time := config.scan_time
    range_min := config.range_min
    range_max := config.range_max
    range_min_sq := config.range_min * config.range_min }

/-- The ROS parameters `onInit` may read; `none` models an absent
parameter, which `getParam` leaves at its previous value. -/
structure InitParams where
  min_height : Option ℚ
  max_height : Option ℚ
  angle_min : Option ℚ
  angle_max : Option ℚ
  angle_increment : Option ℚ
  scan_time : Option ℚ
  range_min : Option ℚ
  range_max : Option ℚ
deriving DecidableEq, Repr

/-- The configuration part of `CloudToScan::onInit` (lines 83-93): each
`getParam` overwrites a field when the parameter is set, then line 93
computes `range_min_sq_ = range_min_ * range_min_`. -/
def onInit (p : InitParams) (s : Params) : Params :=
  let s1 : Params :=
    { s with
      min_height := p.min_height.getD s.min_height
      max_height := p.max_height.getD s.max_height
      angle_min := p.angle_min.getD s.angle_min
      angle_max := p.angle_max.getD s.angle_max
      angle_increment := p.angle_increment.getD s.angle_increment
      scan_time := p.scan_time.getD s.scan_time
      range_min := p.range_min.getD s.range_min
      range_max := p.range_max.getD s.range_max }
  { s1 with range_min_sq := s1.range_min * s1.range_min }

/-- The height-band rejection test of line 212, as a predicate on a
point: true iff the point's z is a (non-NaN) value with
`z > max_height` or `z < min_height`. -/
def heightRejected (P : Params) (p : TPoint) : Bool :=
  match p.z with
  | some z => decide (z > P.max_height ∨ z < P.min_height)
  | none => false

/-- Spec-side pose, following the words of spec §4.1 steps 1-2: the
scan-frame origin takes x/y from the translation of `cloud_to_ref` and
z the midpoint of (min_height, max_height); the orientation is a
rotation about the world z-axis (0,0,1) by
yaw = atan2(rotated_y, rotated_x) of the reference z-axis rotated by
`cloud_to_ref`'s rotation. -/
def specVirtualLaserPose (qAxisAngle : V3 → ℚ → Quat) (atan2F : ℚ → ℚ → ℚ)
    (cloud_to_ref : Tf) (min_height max_height : ℚ) : Tf :=
  let rotated := qrot cloud_to_ref.rot ⟨0, 0, 1⟩
  let yaw := atan2F rotated.y rotated.x
  { rot := qAxisAngle ⟨0, 0, 1⟩ yaw
    origin := ⟨cloud_to_ref.origin.x, cloud_to_ref.origin.y,
               (min_height + max_height) / 2⟩ }

/-- Spec-side, §4.1 step 4: the pose identical to steps 1-2 but with z
forced to 0.0 (the output-at-ground pose). -/
def specGroundPose (qAxisAngle : V3 → ℚ → Quat) (atan2F : ℚ → ℚ → ℚ)
    (cloud_to_ref : Tf) (min_height max_height : ℚ) : Tf :=
  let p := specVirtualLaserPose qAxisAngle atan2F cloud_to_ref min_height max_height
  { p with origin := ⟨p.origin.x, p.origin.y, 0⟩ }

/-- Spec-side, §4.1 step 4: `cloud_to_out = inverse(output-at-ground
pose) ∘ cloud_to_ref`. -/
def specCloudToOut (qAxisAngle : V3 → ℚ → Quat) (atan2F : ℚ → ℚ → ℚ)
    (cloud_to_ref : Tf) (min_height max_height : ℚ) : Tf :=
  tfMult (tfInverse (specGroundPose qAxisAngle atan2F cloud_to_ref min_height max_height))
    cloud_to_ref

/-- A trivial atan2 oracle for concrete evaluations: every point used
with it lies straight ahead (angle 0). -/
def atanZ : ℚ → ℚ → ℚ := fun _ _ => 0

/-- Concrete parameters for witnesses: height band [0, 1], angles
[-1, 1] with increment 1 (two bins), range_min 0 (squared cache 0),
range_max 10 (sentinel 11). -/
def Pdemo : Params :=
  { min_height := 0, max_height := 1, angle_min := -1, angle_max := 1
    angle_increment := 1, scan_time := 0, range_min := 0, range_max := 10
    range_min_sq := 0 }

/-- Square-root oracle correct on the squared ranges 4 and 9. -/
def sqrt49 : ℚ → ℚ := fun q => if q = 4 then 2 else if q = 9 then 3 else 0

/-- Square-root oracle correct on the squared ranges 400 and 900. -/
def sqrt489 : ℚ → ℚ := fun q => if q = 400 then 20 else if q = 900 then 30 else 0

/-- Square-root oracle correct on the squared range (21/2)^2. -/
def sqrtMid : ℚ → ℚ := fun q => if q = 441 / 4 then 21 / 2 else 0

/-! ## Helper lemmas -/

theorem getD_setD_self (a : Array ℚ) (i : ℕ) (v : ℚ) (h : i < a.size) :
    (a.setD i v).getD i 0 = v := by
  simp [Array.setD, h, Array.getD, Array.size_set, Array.getElem_set]

theorem getD_setD_ne (a : Array ℚ) (i j : ℕ) (v : ℚ) (hij : j ≠ i) :
    (a.setD j v).getD i 0 = a.getD i 0 := by
  unfold Array.setD
  split
  · unfold Array.getD
    simp only [Array.size_set]
    split
    · simp only [Array.get_eq_getElem]
      rw [Array.getElem_set_ne]
      simpa using hij
    · rfl
  · rfl

theorem getD_mkArray (n : ℕ) (v : ℚ) (i : ℕ) (h : i < n) :
    (Array.mkArray n v).getD i 0 = v := by
  unfold Array.getD
  split
  · simp [Array.getElem_mkArray]
  · next h2 => exact absurd (by simpa using h) h2

theorem size_processPoint (a : ℚ → ℚ → ℚ) (s : ℚ → ℚ) (P : Params)
    (r : Array ℚ) (p : TPoint) : (processPoint a s P r p).size = r.size := by
  unfold processPoint
  obtain ⟨px, py, pz⟩ := p
  cases px <;> cases py <;> cases pz <;> try rfl
  dsimp only
  split_ifs <;> simp [Array.size_setD]

theorem processPoint_eq_contrib (a : ℚ → ℚ → ℚ) (s : ℚ → ℚ) (P : Params)
    (r : Array ℚ) (p : TPoint) :
    processPoint a s P r p =
      match contrib a P p with
      | none => r
      | some (i, rsq) =>
          if r.getD i 0 * r.getD i 0 > rsq then r.setD i (s rsq) else r := by
  unfold processPoint contrib
  obtain ⟨px, py, pz⟩ := p
  cases px <;> cases py <;> cases pz <;> try rfl
  dsimp only
  split_ifs <;> simp_all
  exact (if_neg (not_lt_of_le (by assumption))).symm

theorem binContribs_nil (a : ℚ → ℚ → ℚ) (P : Params) (i : ℕ) :
    binContribs a P [] i = [] := rfl

theorem binContribs_cons (a : ℚ → ℚ → ℚ) (P : Params) (p : TPoint)
    (pts : List TPoint) (i : ℕ) :
    binContribs a P (p :: pts) i =
      match contrib a P p with
      | some (j, rsq) =>
          if j = i then rsq :: binContribs a P pts i else binContribs a P pts i
      | none => binContribs a P pts i := by
  unfold binContribs
  rw [List.filterMap_cons]
  cases hc : contrib a P p with
  | none => rfl
  | some pr =>
      obtain ⟨j, rsq⟩ := pr
      by_cases hji : j = i <;> simp [hji]

theorem getD_foldl_processPoint (a : ℚ → ℚ → ℚ) (s : ℚ → ℚ) (P : Params)
    (pts : List TPoint) :
    ∀ (r : Array ℚ) (i : ℕ), i < r.size →
      (pts.foldl (processPoint a s P) r).getD i 0 =
        binFold s (r.getD i 0) (binContribs a P pts i) := by
  induction pts with
  | nil => intro r i _; rfl
  | cons p pts ih =>
      intro r i hi
      rw [List.foldl_cons,
        ih (processPoint a s P r p) i (by rw [size_processPoint]; exact hi),
        binContribs_cons]
      rw [processPoint_eq_contrib]
      cases hc : contrib a P p with
      | none => rfl
      | some pr =>
          obtain ⟨j, rsq⟩ := pr
          dsimp only
          by_cases hji : j = i
          · subst hji
            rw [if_pos rfl]
            have hinit : (if r.getD j 0 * r.getD j 0 > rsq
                then r.setD j (s rsq) else r).getD j 0 =
                binUpdate s (r.getD j 0) rsq := by
              unfold binUpdate
              by_cases hgt : r.getD j 0 * r.getD j 0 > rsq
              · rw [if_pos hgt, if_pos hgt, getD_setD_self r j (s rsq) hi]
              · rw [if_neg hgt, if_neg hgt]
            rw [hinit]
            rfl
          · rw [if_neg hji]
            have hinit : (if r.getD j 0 * r.getD j 0 > rsq
                then r.setD j (s rsq) else r).getD i 0 = r.getD i 0 := by
              by_cases hgt : r.getD j 0 * r.getD j 0 > rsq
              · rw [if_pos hgt]
                exact getD_setD_ne r i j (s rsq) hji
              · rw [if_neg hgt]
            rw [hinit]

theorem size_processCloud (a : ℚ → ℚ → ℚ) (s : ℚ → ℚ) (P : Params)
    (pts : List TPoint) : (processCloud a s P pts).size = rangesSize P := by
  unfold processCloud
  have h : ∀ (l : List TPoint) (r : Array ℚ),
      (l.foldl (processPoint a s P) r).size = r.size := by
    intro l
    induction l with
    | nil => intro r; rfl
    | cons p l ih => intro r; rw [List.foldl_cons, ih, size_processPoint]
  rw [h, Array.size_mkArray]

theorem getD_processCloud (a : ℚ → ℚ → ℚ) (s : ℚ → ℚ) (P : Params)
    (pts : List TPoint) (i : ℕ) (hi : i < rangesSize P) :
    (processCloud a s P pts).getD i 0 =
      binFold s (P.range_max + 1) (binContribs a P pts i) := by
  unfold processCloud
  rw [getD_foldl_processPoint a s P pts _ i
      (by rw [Array.size_mkArray]; exact hi),
    getD_mkArray _ _ _ hi]

theorem binUpdate_eq_min (s : ℚ → ℚ) (b rsq : ℚ) (hb : 0 ≤ b)
    (hs0 : 0 ≤ s rsq) (hs : s rsq * s rsq = rsq) :
    binUpdate s b rsq = min b (s rsq) := by
  unfold binUpdate
  rcases le_or_lt b (s rsq) with hle | hlt
  · rw [if_neg, min_eq_left hle]
    have := mul_self_le_mul_self hb hle
    rw [hs] at this
    exact not_lt_of_le this
  · rw [if_pos, min_eq_right (le_of_lt hlt)]
    have := mul_self_lt_mul_self hs0 hlt
    rw [hs] at this
    exact this

theorem binFold_eq_foldl_min (s : ℚ → ℚ) (l : List ℚ) :
    ∀ init : ℚ, 0 ≤ init →
      (∀ rsq ∈ l, 0 ≤ s rsq ∧ s rsq * s rsq = rsq) →
      binFold s init l = l.foldl (fun m rsq => min m (s rsq)) init := by
  induction l with
  | nil => intro init _ _; rfl
  | cons rsq l ih =>
      intro init h0 hs
      have hsr := hs rsq (List.mem_cons_self rsq l)
      have hstep : binUpdate s init rsq = min init (s rsq) :=
        binUpdate_eq_min s init rsq h0 hsr.1 hsr.2
      have h0s : 0 ≤ min init (s rsq) := le_min h0 hsr.1
      calc binFold s init (rsq :: l)
          = binFold s (binUpdate s init rsq) l := rfl
        _ = binFold s (min init (s rsq)) l := by rw [hstep]
        _ = l.foldl (fun m r => min m (s r)) (min init (s rsq)) :=
            ih _ h0s (fun r hr => hs r (List.mem_cons_of_mem rsq hr))
        _ = (rsq :: l).foldl (fun m r => min m (s r)) init := rfl

theorem foldl_min_le_init (s : ℚ → ℚ) (l : List ℚ) :
    ∀ init : ℚ, l.foldl (fun m rsq => min m (s rsq)) init ≤ init := by
  induction l with
  | nil => intro init; exact le_refl init
  | cons rsq l ih =>
      intro init
      calc (rsq :: l).foldl (fun m r => min m (s r)) init
          = l.foldl (fun m r => min m (s r)) (min init (s rsq)) := rfl
        _ ≤ min init (s rsq) := ih _
        _ ≤ init := min_le_left _ _

/-! ## Claims -/

/-- C9: after `onInit` and after every `reconfigure`, the stored
`range_min_sq` equals `range_min * range_min`, so a processing pass
never reads a squared-minimum-range cache inconsistent with the
minimum range. -/
theorem c9_range_min_sq_consistent (config : Config) (p : InitParams)
    (s t : Params) :
    (reconfigure config s).range_min_sq =
      (reconfigure config s).range_min * (reconfigure config s).range_min ∧
    (onInit p t).range_min_sq = (onInit p t).range_min * (onInit p t).range_min :=
  ⟨rfl, rfl⟩

/-- C1 (code behavior at the failing input): when the transform lookup
throws, the catch block of lines 164-166 only logs, so the callback
still publishes a scan — computed from the default-constructed
(uninitialized, here arbitrary `junk`) transform.  This contradicts the
claim that no output scan is published for that frame. -/
theorem c1_scan_published_on_lookup_failure (qAxisAngle : V3 → ℚ → Quat)
    (atan2F : ℚ → ℚ → ℚ) (sqrtF : ℚ → ℚ) (P : Params) (junk : Tf)
    (pts : List TPoint) :
    callback qAxisAngle atan2F sqrtF P junk LookupResult.err pts =
      some (processCloud atan2F sqrtF P (pts.map (tfApplyPt
        (cloudToOut qAxisAngle atan2F junk P.min_height P.max_height)))) :=
  rfl

theorem foldl_filter_of_skip {α β : Type} (f : β → α → β) (pred : α → Bool)
    (h : ∀ (b : β) (x : α), pred x = false → f b x = b) :
    ∀ (l : List α) (b : β), l.foldl f b = (l.filter pred).foldl f b := by
  intro l
  induction l with
  | nil => intro b; rfl
  | cons x l ih =>
      intro b
      rw [List.foldl_cons, List.filter_cons]
      by_cases hp : pred x
      · rw [if_pos hp, List.foldl_cons, ih]
      · rw [if_neg hp, h b x (by simpa using hp), ih]

theorem processPoint_nan (a : ℚ → ℚ → ℚ) (s : ℚ → ℚ) (P : Params)
    (r : Array ℚ) (p : TPoint) (h : isNaNPt p = true) :
    processPoint a s P r p = r := by
  unfold processPoint
  unfold isNaNPt at h
  obtain ⟨px, py, pz⟩ := p
  cases px <;> cases py <;> cases pz <;> simp_all

theorem processPoint_heightRejected (a : ℚ → ℚ → ℚ) (s : ℚ → ℚ) (P : Params)
    (r : Array ℚ) (p : TPoint) (h : heightRejected P p = true) :
    processPoint a s P r p = r := by
  unfold processPoint
  unfold heightRejected at h
  obtain ⟨px, py, pz⟩ := p
  cases px <;> cases py <;> cases pz <;> simp_all

/-- C5: points with a NaN coordinate are discarded and the pass
continues: the published scan over any cloud equals the scan over the
same cloud with every NaN point removed (so one NaN point among nine
valid ones leaves exactly the scan of the nine, and no NaN reaches the
output), for every parameter set and every atan2/sqrt realization. -/
theorem c5_nan_points_discarded (a : ℚ → ℚ → ℚ) (s : ℚ → ℚ) (P : Params)
    (pts : List TPoint) :
    processCloud a s P pts =
      processCloud a s P (pts.filter (fun p => !(isNaNPt p))) := by
  unfold processCloud
  exact foldl_filter_of_skip _ _
    (fun r p hp => processPoint_nan a s P r p (by simpa using hp)) pts _

/-- C6: points whose height lies outside [min_height, max_height] are
discarded and never influence the published scan (removing them leaves
the scan unchanged), and a height exactly equal to min_height or
max_height is not rejected by the height filter. -/
theorem c6_height_band_filter (P : Params)
    (h : P.min_height ≤ P.max_height) :
    (∀ (a : ℚ → ℚ → ℚ) (s : ℚ → ℚ) (pts : List TPoint),
      processCloud a s P pts =
        processCloud a s P (pts.filter (fun p => !(heightRejected P p)))) ∧
    (∀ x y : Option ℚ,
      heightRejected P ⟨x, y, some P.min_height⟩ = false ∧
      heightRejected P ⟨x, y, some P.max_height⟩ = false) := by
  constructor
  · intro a s pts
    unfold processCloud
    exact foldl_filter_of_skip _ _
      (fun r p hp => processPoint_heightRejected a s P r p (by simpa using hp))
      pts _
  · intro x y
    constructor <;>
      simp [heightRejected, not_or, not_lt, h, le_refl]

/-- C6 witness: with the demo parameters (height band [0, 1]) a point
at height exactly min_height and one at exactly max_height pass the
height filter. -/
theorem c6_witness :
    heightRejected Pdemo ⟨some 1, some 0, some Pdemo.min_height⟩ = false ∧
    heightRejected Pdemo ⟨some 1, some 0, some Pdemo.max_height⟩ = false :=
  (c6_height_band_filter Pdemo (by norm_num [Pdemo])).2 (some 1) (some 0)

/-- C7: a point whose angle is exactly angle_min maps to bin 0, and a
point at angle_min + angle_increment·k (k an integer with the angle
still inside [angle_min, angle_max]) maps to bin k. -/
theorem c7_bin_roundtrip (P : Params) (k : ℤ)
    (hinc : 0 < P.angle_increment)
    (hlo : P.angle_min ≤ P.angle_min + P.angle_increment * k)
    (_hhi : P.angle_min + P.angle_increment * k ≤ P.angle_max) :
    binIndex P P.angle_min = 0 ∧
    binIndex P (P.angle_min + P.angle_increment * k) = k := by
  have hne : P.angle_increment ≠ 0 := ne_of_gt hinc
  constructor
  · rw [binIndex, sub_self, zero_div, truncToInt, if_pos (le_refl (0 : ℚ))]
    exact Int.floor_zero
  · have hq : (P.angle_min + P.angle_increment * k - P.angle_min) /
        P.angle_increment = (k : ℚ) := by
      rw [add_sub_cancel_left]
      exact mul_div_cancel_left₀ (k : ℚ) hne
    have hk0 : 0 ≤ (k : ℚ) := by
      have h1 : 0 ≤ P.angle_increment * (k : ℚ) := by linarith
      exact (mul_nonneg_iff_of_pos_left hinc).mp h1
    rw [binIndex, hq, truncToInt, if_pos hk0]
    exact Int.floor_intCast k

/-- C7 witness: with the demo parameters (angle_min -1, increment 1),
angle -1 maps to bin 0 and angle -1 + 1·2 = 1 maps to bin 2. -/
theorem c7_witness :
    binIndex Pdemo Pdemo.angle_min = 0 ∧
    binIndex Pdemo (Pdemo.angle_min + Pdemo.angle_increment * (2 : ℤ)) = 2 :=
  c7_bin_roundtrip Pdemo 2 (by norm_num [Pdemo]) (by norm_num [Pdemo])
    (by norm_num [Pdemo])

/-- C2 amended: for angle_increment > 0 and a point passing the angle
filter, the bin index is nonnegative and at most bin_count; it is
strictly below bin_count whenever angle < angle_max.  (At angle =
angle_max the index can equal bin_count — see the counterexample.) -/
theorem c2_bin_index_bounds (P : Params) (angle : ℚ)
    (hinc : 0 < P.angle_increment)
    (hlo : P.angle_min ≤ angle) (hhi : angle ≤ P.angle_max) :
    0 ≤ binIndex P angle ∧
    binIndex P angle ≤ (rangesSize P : ℤ) ∧
    (angle < P.angle_max → (binIndex P angle).toNat < rangesSize P) := by
  set q := (angle - P.angle_min) / P.angle_increment with hqdef
  set Q := (P.angle_max - P.angle_min) / P.angle_increment with hQdef
  have hq0 : 0 ≤ q := div_nonneg (by linarith) (le_of_lt hinc)
  have hQ0 : 0 ≤ Q := div_nonneg (by linarith) (le_of_lt hinc)
  have hbi : binIndex P angle = ⌊q⌋ := by
    rw [binIndex, truncToInt, if_pos hq0]
  have hceil0 : 0 ≤ ⌈Q⌉ := Int.ceil_nonneg hQ0
  have hsz : (rangesSize P : ℤ) = ⌈Q⌉ := Int.toNat_of_nonneg hceil0
  have hszn : rangesSize P = (⌈Q⌉).toNat := rfl
  have hfl0 : 0 ≤ ⌊q⌋ := Int.floor_nonneg.mpr hq0
  have hqQ : q ≤ Q := by
    rw [hqdef, hQdef]
    exact (div_le_div_iff_of_pos_right hinc).mpr (by linarith)
  refine ⟨hbi ▸ hfl0, ?_, ?_⟩
  · rw [hbi, hsz]
    have hcast : (⌊q⌋ : ℚ) ≤ (⌈Q⌉ : ℚ) :=
      le_trans (Int.floor_le q) (le_trans hqQ (Int.le_ceil Q))
    exact_mod_cast hcast
  · intro hlt
    have hqQs : q < Q := by
      rw [hqdef, hQdef]
      exact (div_lt_div_iff_of_pos_right hinc).mpr (by linarith)
    have hcast : (⌊q⌋ : ℚ) < (⌈Q⌉ : ℚ) :=
      lt_of_le_of_lt (Int.floor_le q) (lt_of_lt_of_le hqQs (Int.le_ceil Q))
    have hlt2 : ⌊q⌋ < ⌈Q⌉ := by exact_mod_cast hcast
    rw [hbi, hszn]
    exact (Int.toNat_lt_toNat (lt_of_le_of_lt hfl0 hlt2)).mpr hlt2

/-- C2 witness: with the demo parameters, the in-filter angle 1/2 <
angle_max gets bin index 1, inside [0, bin_count) = [0, 2). -/
theorem c2_witness :
    0 ≤ binIndex Pdemo (1 / 2) ∧
    (binIndex Pdemo (1 / 2)).toNat < rangesSize Pdemo :=
  ⟨(c2_bin_index_bounds Pdemo (1 / 2) (by norm_num [Pdemo])
      (by norm_num [Pdemo]) (by norm_num [Pdemo])).1,
   (c2_bin_index_bounds Pdemo (1 / 2) (by norm_num [Pdemo])
      (by norm_num [Pdemo]) (by norm_num [Pdemo])).2.2 (by norm_num [Pdemo])⟩

/-- C2 counterexample: with angle_min = -1, angle_max = 1,
angle_increment = 1 (bin_count = 2), the angle 1 = angle_max passes the
angle filter of line 225, yet its bin index is 2, not inside
[0, bin_count): the access `ranges[2]` of line 232 is out of bounds. -/
theorem c2_counterexample :
    (¬ ((1 : ℚ) < Pdemo.angle_min ∨ (1 : ℚ) > Pdemo.angle_max)) ∧
    binIndex Pdemo 1 = 2 ∧ rangesSize Pdemo = 2 ∧
    ¬ ((binIndex Pdemo 1).toNat < rangesSize Pdemo) := by
  refine ⟨?_, ?_, ?_, ?_⟩ <;> norm_num [Pdemo, binIndex, truncToInt, rangesSize]
  decide

/-- C4: the ranges array is initialized to the sentinel range_max + 1.0
in every bin before the point loop, and a bin to which no accepted
point was assigned still holds the sentinel — in particular a nonzero
value — after the pass. -/
theorem c4_untouched_bins_sentinel (a : ℚ → ℚ → ℚ) (s : ℚ → ℚ)
    (P : Params) (pts : List TPoint) (i : ℕ) (hR : 0 ≤ P.range_max)
    (hi : i < rangesSize P) (hempty : binContribs a P pts i = []) :
    (Array.mkArray (rangesSize P) (P.range_max + 1)).getD i 0 =
      P.range_max + 1 ∧
    (processCloud a s P pts).getD i 0 = P.range_max + 1 ∧
    (processCloud a s P pts).getD i 0 ≠ 0 := by
  have h2 : (processCloud a s P pts).getD i 0 = P.range_max + 1 := by
    rw [getD_processCloud a s P pts i hi, hempty]
    rfl
  refine ⟨getD_mkArray (rangesSize P) (P.range_max + 1) i hi, h2, ?_⟩
  rw [h2]
  exact ne_of_gt (by linarith)

/-- C4 witness: with the demo parameters and an empty cloud, bin 0
holds the sentinel 10 + 1 = 11, which is not zero. -/
theorem c4_witness :
    (processCloud atanZ sqrt49 Pdemo []).getD 0 0 = Pdemo.range_max + 1 ∧
    (processCloud atanZ sqrt49 Pdemo []).getD 0 0 ≠ 0 :=
  ⟨(c4_untouched_bins_sentinel atanZ sqrt49 Pdemo [] 0 (by norm_num [Pdemo])
      (by norm_num [rangesSize, Pdemo]) rfl).2.1,
   (c4_untouched_bins_sentinel atanZ sqrt49 Pdemo [] 0 (by norm_num [Pdemo])
      (by norm_num [rangesSize, Pdemo]) rfl).2.2⟩

/-- C3 amended: the final value of bin i is the min-reduction of the
sentinel range_max + 1 together with the planar ranges sqrt(range_sq)
of all accepted points assigned to bin i.  For two same-bin points it
equals the smaller of the two planar ranges provided that smaller range
is below the sentinel (the original claim omitted the sentinel cap). -/
theorem c3_min_reduction (a : ℚ → ℚ → ℚ) (s : ℚ → ℚ) (P : Params)
    (pts : List TPoint) (i : ℕ) (hR : 0 ≤ P.range_max)
    (hi : i < rangesSize P)
    (hs : ∀ rsq ∈ binContribs a P pts i, 0 ≤ s rsq ∧ s rsq * s rsq = rsq) :
    (processCloud a s P pts).getD i 0 =
      (binContribs a P pts i).foldl (fun m rsq => min m (s rsq))
        (P.range_max + 1) ∧
    (∀ rsq1 rsq2, binContribs a P pts i = [rsq1, rsq2] →
      (processCloud a s P pts).getD i 0 =
        min (P.range_max + 1) (min (s rsq1) (s rsq2)) ∧
      (min (s rsq1) (s rsq2) < P.range_max + 1 →
        (processCloud a s P pts).getD i 0 = min (s rsq1) (s rsq2))) := by
  have h0 : (0 : ℚ) ≤ P.range_max + 1 := by linarith
  have hmain : (processCloud a s P pts).getD i 0 =
      (binContribs a P pts i).foldl (fun m rsq => min m (s rsq))
        (P.range_max + 1) := by
    rw [getD_processCloud a s P pts i hi]
    exact binFold_eq_foldl_min s (binContribs a P pts i) (P.range_max + 1) h0 hs
  refine ⟨hmain, ?_⟩
  intro rsq1 rsq2 hpair
  have htwo : (processCloud a s P pts).getD i 0 =
      min (P.range_max + 1) (min (s rsq1) (s rsq2)) := by
    rw [hmain, hpair]
    show min (min (P.range_max + 1) (s rsq1)) (s rsq2) = _
    rw [min_assoc]
  refine ⟨htwo, fun hlt => ?_⟩
  rw [htwo, min_eq_right (le_of_lt hlt)]

/-- C3 counterexample: with range_max = 10 (sentinel 11) two accepted
points in bin 1 have planar ranges 20 and 30 (squared 400 and 900);
neither beats the sentinel, so the published bin keeps 11, not the
claimed minimum range 20. -/
theorem c3_counterexample :
    binContribs atanZ Pdemo
      [⟨some 20, some 0, some 0⟩, ⟨some 30, some 0, some 0⟩] 1 =
      [400, 900] ∧
    sqrt489 400 = 20 ∧ sqrt489 900 = 30 ∧
    (processCloud atanZ sqrt489 Pdemo
      [⟨some 20, some 0, some 0⟩, ⟨some 30, some 0, some 0⟩]).getD 1 0 =
      11 ∧
    ¬ ((processCloud atanZ sqrt489 Pdemo
      [⟨some 20, some 0, some 0⟩, ⟨some 30, some 0, some 0⟩]).getD 1 0 =
        min (sqrt489 400) (sqrt489 900)) := by
  have hcontrib : binContribs atanZ Pdemo
      [⟨some 20, some 0, some 0⟩, ⟨some 30, some 0, some 0⟩] 1 =
      [400, 900] := by
    norm_num [binContribs, contrib, atanZ, Pdemo, binIndex, truncToInt,
      List.filterMap_cons, List.filterMap_nil]
  have hval : (processCloud atanZ sqrt489 Pdemo
      [⟨some 20, some 0, some 0⟩, ⟨some 30, some 0, some 0⟩]).getD 1 0 =
      11 := by
    rw [getD_processCloud atanZ sqrt489 Pdemo _ 1
        (by norm_num [rangesSize, Pdemo]), hcontrib]
    norm_num [binFold, binUpdate, Pdemo]
  refine ⟨hcontrib, by norm_num [sqrt489], by norm_num [sqrt489], hval, ?_⟩
  rw [hval]
  norm_num [sqrt489]

/-- C3 witness: two accepted points in bin 1 with squared planar
distances 4 and 9 (ranges 2 and 3) yield the published range 2. -/
theorem c3_witness :
    (processCloud atanZ sqrt49 Pdemo
      [⟨some 2, some 0, some 0⟩, ⟨some 3, some 0, some 0⟩]).getD 1 0 = 2 := by
  have hcontrib : binContribs atanZ Pdemo
      [⟨some 2, some 0, some 0⟩, ⟨some 3, some 0, some 0⟩] 1 = [4, 9] := by
    norm_num [binContribs, contrib, atanZ, Pdemo, binIndex, truncToInt,
      List.filterMap_cons, List.filterMap_nil]
  have hs : ∀ rsq ∈ binContribs atanZ Pdemo
      [⟨some 2, some 0, some 0⟩, ⟨some 3, some 0, some 0⟩] 1,
      0 ≤ sqrt49 rsq ∧ sqrt49 rsq * sqrt49 rsq = rsq := by
    rw [hcontrib]
    intro rsq hr
    rcases List.mem_pair.mp hr with rfl | rfl <;> norm_num [sqrt49]
  have h := ((c3_min_reduction atanZ sqrt49 Pdemo
      [⟨some 2, some 0, some 0⟩, ⟨some 3, some 0, some 0⟩] 1
      (by norm_num [Pdemo]) (by norm_num [rangesSize, Pdemo]) hs).2
      4 9 hcontrib).2 (by norm_num [sqrt49, Pdemo])
  rw [h]
  norm_num [sqrt49]

/-- C10: the pipeline has no maximum-range filter.  Every published bin
value is at most range_max + 1 (a candidate at or above the sentinel
never replaces it), yet a sole accepted point whose planar range lies
strictly between range_max and range_max + 1 does overwrite the
sentinel, so published ranges can exceed range_max. -/
theorem c10_no_max_range_filter (a : ℚ → ℚ → ℚ) (s : ℚ → ℚ) (P : Params)
    (pts : List TPoint) (i : ℕ) (hR : 0 ≤ P.range_max)
    (hi : i < rangesSize P)
    (hs : ∀ rsq ∈ binContribs a P pts i, 0 ≤ s rsq ∧ s rsq * s rsq = rsq) :
    (processCloud a s P pts).getD i 0 ≤ P.range_max + 1 ∧
    (∀ rsq, binContribs a P pts i = [rsq] →
      P.range_max < s rsq → s rsq < P.range_max + 1 →
      (processCloud a s P pts).getD i 0 = s rsq ∧
      P.range_max < (processCloud a s P pts).getD i 0) := by
  have h0 : (0 : ℚ) ≤ P.range_max + 1 := by linarith
  have hmain : (processCloud a s P pts).getD i 0 =
      (binContribs a P pts i).foldl (fun m rsq => min m (s rsq))
        (P.range_max + 1) := by
    rw [getD_processCloud a s P pts i hi]
    exact binFold_eq_foldl_min s (binContribs a P pts i) (P.range_max + 1) h0 hs
  constructor
  · rw [hmain]
    exact foldl_min_le_init s (binContribs a P pts i) (P.range_max + 1)
  · intro rsq hsing hgt hlt
    have hone : (processCloud a s P pts).getD i 0 =
        min (P.range_max + 1) (s rsq) := by
      rw [hmain, hsing]
      rfl
    have heq : (processCloud a s P pts).getD i 0 = s rsq := by
      rw [hone, min_eq_right (le_of_lt hlt)]
    exact ⟨heq, heq ▸ hgt⟩

/-- C10 witness: a sole accepted point at planar range 21/2 (squared
441/4), strictly between range_max = 10 and the sentinel 11, ends up
published: bin 1 reads 21/2, which exceeds range_max yet stays at most
the sentinel. -/
theorem c10_witness :
    (processCloud atanZ sqrtMid Pdemo [⟨some (21 / 2), some 0, some 0⟩]).getD 1 0 =
      21 / 2 ∧
    Pdemo.range_max <
      (processCloud atanZ sqrtMid Pdemo [⟨some (21 / 2), some 0, some 0⟩]).getD 1 0 ∧
    (processCloud atanZ sqrtMid Pdemo [⟨some (21 / 2), some 0, some 0⟩]).getD 1 0 ≤
      Pdemo.range_max + 1 := by
  have hcontrib : binContribs atanZ Pdemo
      [⟨some (21 / 2), some 0, some 0⟩] 1 = [441 / 4] := by
    norm_num [binContribs, contrib, atanZ, Pdemo, binIndex, truncToInt,
      List.filterMap_cons, List.filterMap_nil]
  have hs : ∀ rsq ∈ binContribs atanZ Pdemo
      [⟨some (21 / 2), some 0, some 0⟩] 1,
      0 ≤ sqrtMid rsq ∧ sqrtMid rsq * sqrtMid rsq = rsq := by
    rw [hcontrib]
    intro rsq hr
    rcases List.mem_singleton.mp hr with rfl
    norm_num [sqrtMid]
  have h := c10_no_max_range_filter atanZ sqrtMid Pdemo
      [⟨some (21 / 2), some 0, some 0⟩] 1 (by norm_num [Pdemo])
      (by norm_num [rangesSize, Pdemo]) hs
  have h2 := h.2 (441 / 4) hcontrib (by norm_num [sqrtMid, Pdemo])
      (by norm_num [sqrtMid, Pdemo])
  refine ⟨?_, h2.2, h.1⟩
  rw [h2.1]
  norm_num [sqrtMid]

/-- C8: the broadcast virtual-laser pose takes its x/y translation from
cloud_to_ref, its z is (min_height + max_height)/2, its rotation is the
axis-angle rotation about the world z-axis (0,0,1) by
yaw = atan2 of the y and x components of cloud_to_ref's rotation
applied to (0,0,1); and the composite transform applied to every point
is inverse(that same pose with z forced to 0) composed with
cloud_to_ref — the source construction coincides with the spec-side
one for every transform, height band, and atan2/axis-angle
realization. -/
theorem c8_virtual_pose_refinement (qAxisAngle : V3 → ℚ → Quat)
    (atan2F : ℚ → ℚ → ℚ) (cloud_to_ref : Tf) (mh Mh : ℚ) :
    virtualLaserPose qAxisAngle atan2F cloud_to_ref mh Mh =
      specVirtualLaserPose qAxisAngle atan2F cloud_to_ref mh Mh ∧
    groundPose qAxisAngle atan2F cloud_to_ref mh Mh =
      specGroundPose qAxisAngle atan2F cloud_to_ref mh Mh ∧
    cloudToOut qAxisAngle atan2F cloud_to_ref mh Mh =
      specCloudToOut qAxisAngle atan2F cloud_to_ref mh Mh ∧
    (∀ v : V3, tfApply (cloudToOut qAxisAngle atan2F cloud_to_ref mh Mh) v =
      tfApply (tfMult (tfInverse
        (specGroundPose qAxisAngle atan2F cloud_to_ref mh Mh)) cloud_to_ref) v) := by
  have hz : (mh + Mh) * (1 / 2 : ℚ) = (mh + Mh) / 2 := by ring
  have h1 : virtualLaserPose qAxisAngle atan2F cloud_to_ref mh Mh =
      specVirtualLaserPose qAxisAngle atan2F cloud_to_ref mh Mh := by
    simp only [virtualLaserPose, specVirtualLaserPose, hz]
  have h2 : groundPose qAxisAngle atan2F cloud_to_ref mh Mh =
      specGroundPose qAxisAngle atan2F cloud_to_ref mh Mh := by
    simp only [groundPose, specGroundPose, h1]
  have h3 : cloudToOut qAxisAngle atan2F cloud_to_ref mh Mh =
      specCloudToOut qAxisAngle atan2F cloud_to_ref mh Mh := by
    simp only [cloudToOut, specCloudToOut, h2]
  exact ⟨h1, h2, h3, fun v => by rw [h3]; rfl⟩

end CloudToScan
